import Mathlib

/-!
# cpustress: a verification development of `main.go`

The program is a CPU load generator (`main`, `worker`) with a usage monitor
(`monitorCPU`, `getCPUInfo`, `getCPUUsage` and the three platform parsers).

Conventions of the embedding:

* a Go `string` is the list of its runes (`Str`); a byte that is not valid
  UTF-8 is the rune U+FFFD, which is what `strings.Fields` and
  `strings.TrimSpace` see, and is never equal to an ASCII byte;
* a Go `float64` is an IEEE-754 binary64 value (`F64`), with round to nearest,
  ties to even;
* a Go function returning `(float64, error)` returns an `Outcome`, which has a
  third case for a run-time panic;
* `strconv.ParseFloat` is library code: the parsers take it as a parameter
  `pf`; `ParseFloat` below is a model of it on decimal literals.
-/

namespace CpuStress

/-! ## Strings -/

/-- A Go string, as the list of its runes. -/
abbrev Str := List Char

/-- Go `unicode.IsSpace`: the white space runes of `strings.Fields` and
`strings.TrimSpace`. -/
def isSpace (c : Char) : Bool :=
  let n := c.toNat
  (9 ≤ n && n ≤ 13) || n == 32 || n == 0x85 || n == 0xA0 || n == 0x1680 ||
  (0x2000 ≤ n && n ≤ 0x200A) || n == 0x2028 || n == 0x2029 || n == 0x202F ||
  n == 0x205F || n == 0x3000

/-- Go `strings.HasPrefix s p`, arguments swapped: `startsWith p s`. -/
def startsWith : Str → Str → Bool
  | [], _ => true
  | _ :: _, [] => false
  | p :: ps, c :: cs => p == c && startsWith ps cs

/-- Go `strings.Contains s substr`. -/
def Contains : Str → Str → Bool
  | [], substr => substr.isEmpty
  | c :: cs, substr => startsWith substr (c :: cs) || Contains cs substr

/-- Go `strings.Split s sep` for a one-rune separator (the source always
splits at a line feed): the pieces between the separators, empty ones kept. -/
def Split : Str → Char → List Str
  | [], _ => [[]]
  | c :: cs, sep =>
    if c = sep then [] :: Split cs sep
    else
      match Split cs sep with
      | [] => [[c]]
      | piece :: pieces => (c :: piece) :: pieces

/-- Go `strings.Fields`: the maximal runs of runes that are not white space. -/
def Fields : Str → List Str
  | [] => []
  | c :: cs =>
    if isSpace c then Fields cs
    else
      match cs, Fields cs with
      | d :: _, f :: fs => if isSpace d then [c] :: f :: fs else (c :: f) :: fs
      | _, fs => [c] :: fs

/-- Go `strings.TrimSuffix s suffix`. -/
def TrimSuffix (s suffix : Str) : Str :=
  if startsWith suffix.reverse s.reverse then s.take (s.length - suffix.length) else s

/-- Go `strings.TrimSpace`. -/
def TrimSpace (s : Str) : Str :=
  ((s.dropWhile isSpace).reverse.dropWhile isSpace).reverse

/-! ## float64 -/

/-- An IEEE-754 binary64 value. `fin neg m e` is `(-1)^neg * m * 2^(e - 1074)`
with `m < 2^53`, `e ≤ 2045`, and `e = 0` when `m < 2^52`: every finite
binary64 has exactly one such form. -/
inductive F64
  | nan
  | inf (neg : Bool)
  | fin (neg : Bool) (m : Nat) (e : Nat)
  deriving Repr

/-- Equality of binary64 values is decided field by field. -/
instance : DecidableEq F64
  | .nan, .nan => isTrue rfl
  | .inf a, .inf b => decidable_of_iff (a = b) (by simp)
  | .fin a m e, .fin b n f => decidable_of_iff (a = b ∧ m = n ∧ e = f) (by simp)
  | .nan, .inf _ => isFalse (by simp)
  | .nan, .fin _ _ _ => isFalse (by simp)
  | .inf _, .nan => isFalse (by simp)
  | .inf _, .fin _ _ _ => isFalse (by simp)
  | .fin _ _ _, .nan => isFalse (by simp)
  | .fin _ _ _, .inf _ => isFalse (by simp)

/-- The Go constant `0` as a float64. -/
def F64.zero : F64 := .fin false 0 0

/-- The least `e < 4096` with `num < (den * 2^53) * 2^e`, by bisection over the
twelve bits of `e` (4095 when there is none): the binary exponent at which
`num / den` has at most 53 significant bits. -/
def exponentOf (num den : Nat) : Nat :=
  [2048, 1024, 512, 256, 128, 64, 32, 16, 8, 4, 2, 1].foldl
    (fun e b => if num < (den <<< 53) <<< (e + b - 1) then e else e + b) 0

/-- The binary64 nearest to `num / den` units of `2^-1074` (ties to even),
with sign `neg`; infinite past the largest finite value. -/
def roundUnits (neg : Bool) (num den : Nat) : F64 :=
  let e := exponentOf num den
  let d := den <<< e
  let q := num / d
  let r := num % d
  let m := if d < 2 * r ∨ (2 * r = d ∧ q % 2 = 1) then q + 1 else q
  let e := if m = 2 ^ 53 then e + 1 else e
  let m := if m = 2 ^ 53 then 2 ^ 52 else m
  if 2045 < e then .inf neg else .fin neg m e

/-- Go `x + y` on float64. -/
def F64.add : F64 → F64 → F64
  | .nan, _ => .nan
  | _, .nan => .nan
  | .inf a, .inf b => if a = b then .inf a else .nan
  | .inf a, .fin _ _ _ => .inf a
  | .fin _ _ _, .inf b => .inf b
  | .fin s1 m1 e1, .fin s2 m2 e2 =>
    let a := m1 <<< e1
    let b := m2 <<< e2
    if s1 = s2 then roundUnits s1 (a + b) 1
    else if a = b then .fin false 0 0
    else if b < a then roundUnits s1 (a - b) 1
    else roundUnits s2 (b - a) 1

/-- The binary64 nearest to `(-1)^neg * mant * 10^e10`. -/
def F64.ofDecimal (neg : Bool) (mant : Nat) (e10 : Int) : F64 :=
  if 0 ≤ e10 then roundUnits neg ((mant * 10 ^ e10.toNat) <<< 1074) 1
  else roundUnits neg (mant <<< 1074) (10 ^ (-e10).toNat)

/-! ## Errors and results -/

/-- A Go `error` value of this program. -/
inductive GoError
  /-- the error of `cmd.Output()`: the command is missing or exited non-zero -/
  | exec (reason : String)
  /-- the error `strconv.ErrSyntax` of `ParseFloat` on `input` -/
  | errSyntax (input : Str)
  /-- the error `strconv.ErrRange` of `ParseFloat` on `input` -/
  | errRange (input : Str)
  /-- the error `fmt.Errorf(text)` -/
  | text (text : String)
  /-- the error `fmt.Errorf(text + "%v", cause)` -/
  | errorf (text : String) (cause : GoError)
  deriving DecidableEq, Repr

/-- What a call of a Go function `func() (T, error)` does. -/
inductive Outcome (T : Type)
  /-- returns `(v, nil)` -/
  | value (v : T)
  /-- returns `(_, err)` with `err != nil` -/
  | failure (err : GoError)
  /-- does not return: a run-time panic, which ends the process -/
  | panicked (reason : String)
  deriving Repr

/-- Equality of outcomes is decided case by case. -/
instance {T : Type} [DecidableEq T] : DecidableEq (Outcome T)
  | .value a, .value b => decidable_of_iff (a = b) (by simp)
  | .failure a, .failure b => decidable_of_iff (a = b) (by simp)
  | .panicked a, .panicked b => decidable_of_iff (a = b) (by simp)
  | .value _, .failure _ => isFalse (by simp)
  | .value _, .panicked _ => isFalse (by simp)
  | .failure _, .value _ => isFalse (by simp)
  | .failure _, .panicked _ => isFalse (by simp)
  | .panicked _, .value _ => isFalse (by simp)
  | .panicked _, .failure _ => isFalse (by simp)

/-- The two results `(f, err)` of `strconv.ParseFloat(s, 64)`. -/
structure Parsed where
  val : F64
  err : Option GoError
  deriving Repr

/-- Equality of parse results is decided field by field. -/
instance : DecidableEq Parsed
  | ⟨a, e⟩, ⟨b, f⟩ => decidable_of_iff (a = b ∧ e = f) (by simp)

/-- The two results `(output, err)` of `cmd.Output()`. -/
structure CmdResult where
  output : Str
  err : Option GoError
  deriving DecidableEq, Repr

/-! ## A model of `strconv.ParseFloat` on decimal literals -/

/-- The value of a decimal digit. -/
def digitVal (c : Char) : Option Nat :=
  if 48 ≤ c.toNat ∧ c.toNat ≤ 57 then some (c.toNat - 48) else none

/-- Reads a run of decimal digits: the number read so far, how many digits,
and the rest of the string. -/
def readDigits : Str → Nat → Nat → Nat × Nat × Str
  | [], acc, n => (acc, n, [])
  | c :: cs, acc, n =>
    match digitVal c with
    | some d => readDigits cs (acc * 10 + d) (n + 1)
    | none => (acc, n, c :: cs)

/-- Reads an optional sign. -/
def readSign : Str → Bool × Str
  | '-' :: cs => (true, cs)
  | '+' :: cs => (false, cs)
  | cs => (false, cs)

/-- The optional exponent part `e[+-]ddd` that ends a literal: its value, or
`none` when what is left is not an exponent part. -/
def readExponent : Str → Option Int
  | [] => some 0
  | c :: cs =>
    if c = 'e' ∨ c = 'E' then
      match readSign cs with
      | (neg, ds) =>
        match readDigits ds 0 0 with
        | (v, n, rest) =>
          if n = 0 ∨ rest ≠ [] then none
          else some (if neg then -(v : Int) else (v : Int))
    else none

/-- A model of Go `strconv.ParseFloat(s, 64)` on decimal literals
`[+-]ddd[.ddd][e[+-]ddd]`: the nearest binary64, `ErrRange` with an infinite
value past the largest finite one, `ErrSyntax` with value 0 on anything else.
Hexadecimal literals, digit separators and the names of infinity and NaN,
which Go also accepts, are outside this model. -/
def ParseFloat (s : Str) : Parsed :=
  match readSign s with
  | (neg, s1) =>
    match readDigits s1 0 0 with
    | (ip, ni, s2) =>
      match (match s2 with
             | '.' :: t => readDigits t ip 0
             | _ => (ip, 0, s2)) with
      | (mant, nf, s3) =>
        if ni + nf = 0 then ⟨F64.zero, some (.errSyntax s)⟩
        else
          match readExponent s3 with
          | none => ⟨F64.zero, some (.errSyntax s)⟩
          | some x =>
            match F64.ofDecimal neg mant (x - nf) with
            | .inf sg => ⟨.inf sg, some (.errRange s)⟩
            | v => ⟨v, none⟩

/-! ## The usage probes -/

/-- The loop over `lines` of `getMacOSCPUUsage` and what follows it. -/
def macScan (pf : Str → Parsed) : List Str → Outcome F64
  | [] => .failure (.text "failed to parse CPU usage from top output")
  | line :: rest =>
    if Contains line "CPU usage".toList then
      let fields := Fields line
      if 4 ≤ fields.length then
        match fields.get? 2 with
        | none => .panicked "index out of range [2]"
        | some f2 =>
          let userStr := TrimSuffix f2 "%".toList
          match fields.get? 4 with
          | none => .panicked "index out of range [4] with length 4"
          | some f4 =>
            let sysStr := TrimSuffix f4 "%".toList
            let userUsage := (pf userStr).val
            let sysUsage := (pf sysStr).val
            .value (userUsage.add sysUsage)
      else macScan pf rest
    else macScan pf rest

/-- Go `getMacOSCPUUsage`; `cmd` is what `top -l 1 -n 0 -stats cpu` gave. -/
def getMacOSCPUUsage (pf : Str → Parsed) (cmd : CmdResult) : Outcome F64 :=
  match cmd.err with
  | some err => .failure (.errorf "top command failed: " err)
  | none => macScan pf (Split cmd.output '\n')

/-- The loop over `lines` of `getLinuxCPUUsage` and what follows it. -/
def linuxScan (pf : Str → Parsed) : List Str → Outcome F64
  | [] => .failure (.text "failed to parse CPU usage from top output")
  | line :: rest =>
    if Contains line "%Cpu(s)".toList then
      let fields := Fields line
      if 2 ≤ fields.length then
        match fields.get? 1 with
        | none => .panicked "index out of range [1]"
        | some usageStr =>
          match (pf usageStr).err with
          | none => .value (pf usageStr).val
          | some _ => linuxScan pf rest
      else linuxScan pf rest
    else linuxScan pf rest

/-- Go `getLinuxCPUUsage`; `cmd` is what `top -bn 1` gave. -/
def getLinuxCPUUsage (pf : Str → Parsed) (cmd : CmdResult) : Outcome F64 :=
  match cmd.err with
  | some err => .failure (.errorf "top command failed: " err)
  | none => linuxScan pf (Split cmd.output '\n')

/-- Go `getWindowsCPUUsage`; `cmd` is what `wmic cpu get LoadPercentage` gave. -/
def getWindowsCPUUsage (pf : Str → Parsed) (cmd : CmdResult) : Outcome F64 :=
  match cmd.err with
  | some err => .failure (.errorf "wmic command failed: " err)
  | none =>
    let lines := Split cmd.output '\n'
    if lines.length < 2 then .failure (.text "unexpected wmic output format")
    else
      match lines.get? 1 with
      | none => .panicked "index out of range [1]"
      | some line1 =>
        let usageStr := TrimSpace line1
        let usageStr :=
          if usageStr = [] ∧ 2 < lines.length then
            match lines.get? 2 with
            | none => none
            | some line2 => some (TrimSpace line2)
          else some usageStr
        match usageStr with
        | none => .panicked "index out of range [2]"
        | some usageStr =>
          match (pf usageStr).err with
          | some err => .failure (.errorf "failed to parse CPU usage: " err)
          | none => .value (pf usageStr).val

/-- Go `getCPUUsage`; `goos` is `runtime.GOOS` and `cmd` what the command of
the platform's probe gave. -/
def getCPUUsage (goos : String) (pf : Str → Parsed) (cmd : CmdResult) : Outcome F64 :=
  if goos = "darwin" then getMacOSCPUUsage pf cmd
  else if goos = "linux" then getLinuxCPUUsage pf cmd
  else if goos = "windows" then getWindowsCPUUsage pf cmd
  else .failure (.text ("unsupported operating system: " ++ goos))

/-- Go `CPUInfo`. -/
structure CPUInfo where
  Usage : F64
  deriving DecidableEq, Repr

/-- Go `getCPUInfo`; `usage` is what its call of `getCPUUsage()` does. -/
def getCPUInfo (usage : Outcome F64) : Outcome CPUInfo :=
  match usage with
  | .value u => .value ⟨u⟩
  | .failure err => .failure (.errorf "failed to get CPU usage: " err)
  | .panicked reason => .panicked reason

/-! ## The monitor -/

/-- A line the monitor prints. -/
inductive Line
  /-- the line of `Printf("\rError getting CPU info: %v                      ", err)` -/
  | errorGettingCPUInfo (err : GoError)
  /-- the line of `Printf("\rCPU Usage: %.1f%%          ", info.Usage)` -/
  | cpuUsage (usage : F64)
  deriving DecidableEq, Repr

/-- The case one round of the `select` of `monitorCPU` takes. -/
inductive Select
  /-- the case `<-ctx.Done()` -/
  | done
  /-- the case `<-ticker.C`, with what the call of `getCPUUsage()` then does -/
  | tick (probe : Outcome F64)
  deriving DecidableEq, Repr

/-- Where a run of `monitorCPU` stands. -/
inductive MonitorStatus
  /-- blocked in the `select` -/
  | waiting
  /-- returned -/
  | returned
  /-- a panic under `getCPUInfo` ended the process -/
  | crashed
  deriving DecidableEq, Repr

/-- What `monitorCPU` has printed, oldest line first, and where it stands. -/
structure MonitorRun where
  printed : List Line
  status : MonitorStatus
  deriving DecidableEq, Repr

/-- One round of the loop of `monitorCPU` at a tick: the line printed, or
`none` when `getCPUInfo` panics. -/
def monitorTick (probe : Outcome F64) : Option Line :=
  match getCPUInfo probe with
  | .failure err => some (.errorGettingCPUInfo err)
  | .value info => some (.cpuUsage info.Usage)
  | .panicked _ => none

/-- Go `monitorCPU`, run on the cases its `select` takes, in order. -/
def monitorCPU : List Select → MonitorRun
  | [] => ⟨[], .waiting⟩
  | .done :: _ => ⟨[], .returned⟩
  | .tick probe :: rest =>
    match monitorTick probe with
    | none => ⟨[], .crashed⟩
    | some line => ⟨line :: (monitorCPU rest).printed, (monitorCPU rest).status⟩

/-- What a probe that returns does: `(usage, nil)` or `(0, err)`. -/
def probeReturns : Except GoError F64 → Outcome F64
  | .ok usage => .value usage
  | .error err => .failure err

/-- The line the monitor is to print at a tick, from what the probe returned:
the value on success, the error on failure. -/
def renderedLine : Except GoError F64 → Line
  | .ok usage => .cpuUsage usage
  | .error err => .errorGettingCPUInfo (.errorf "failed to get CPU usage: " err)

/-! ## The deadline and the seeds -/

/-- A Go `int64` result: the integer `x` wrapped into `[-2^63, 2^63)`. -/
def wrapInt64 (x : Int) : Int := (x + 2 ^ 63) % 2 ^ 64 - 2 ^ 63

/-- Go `time.Minute`, in nanoseconds. -/
def Minute : Int := 60 * 1000000000

/-- The deadline of `main`: `none` when no timer is armed, else the argument
of `time.NewTimer`, `time.Duration(*duration) * time.Minute`, in nanoseconds. -/
def deadlineDelay (duration : Int) : Option Int :=
  if 0 < duration then some (wrapInt64 (duration * Minute)) else none

/-- The seed of worker `id`, `time.Now().UnixNano() + int64(id)`; `now` is the
clock reading. -/
def workerSeed (now : Int) (id : Int) : Int := wrapInt64 (now + id)

/-! ## The coordinator, its workers and their interleavings

`main` and the goroutines it starts are run as one state machine: a state
holds where each goroutine stands, an action lets one goroutine take its next
step (or lets the timer or a signal arrive), and a schedule is a list of
actions. Time is not modelled: an armed timer may fire at any step. -/

/-- The flags of the command line, as `flag.Parse` leaves them. -/
structure Config where
  /-- the flag `-w` -/
  numWorkers : Int
  /-- the flag `-t` -/
  duration : Int
  deriving DecidableEq, Repr

/-- Where `main` stands. -/
inductive MainPc
  /-- before the first `Printf` -/
  | start
  /-- at `if *duration > 0`, before the deadline goroutine is started -/
  | armDeadline
  /-- before the goroutine that reads `sigChan` is started -/
  | goSignal
  /-- at `go monitorCPU(ctx)` -/
  | goMonitor
  /-- at the test `i < *numWorkers` of the loop that starts the workers -/
  | loop (i : Nat)
  /-- in `wg.Wait()` -/
  | wait
  /-- after `wg.Wait()`, before the last `Println` -/
  | complete
  /-- returned: the process is over -/
  | exited
  deriving DecidableEq, Repr

/-- Where a worker stands. -/
inductive WorkerPc
  /-- started, before its first `Printf` -/
  | entry
  /-- at the `select` -/
  | select
  /-- in the batch of a million iterations -/
  | batch
  /-- returned, `wg.Done()` called -/
  | exited
  deriving DecidableEq, Repr

/-- A worker goroutine: where it stands and the seed of its generator. -/
structure Worker where
  pc : WorkerPc
  seed : Option Int
  deriving DecidableEq, Repr

/-- The goroutine of the deadline. -/
inductive DeadlinePc
  /-- not started: `*duration > 0` is false, or `main` is not there yet -/
  | absent
  /-- in its `select`, the timer armed with `delay` nanoseconds -/
  | waiting (delay : Int)
  /-- received from `timer.C` and called `cancel` -/
  | fired
  /-- received from `ctx.Done()` and stopped the timer -/
  | stopped
  deriving DecidableEq, Repr

/-- The goroutine that reads `sigChan`. -/
inductive SignalPc
  | absent
  /-- blocked in `<-sigChan` -/
  | waiting
  /-- received a signal and called `cancel` -/
  | handled
  deriving DecidableEq, Repr

/-- The goroutine of `monitorCPU`. -/
inductive MonitorPc
  | absent
  | running
  | returned
  deriving DecidableEq, Repr

/-- Who called `cancel`. -/
inductive CancelSource
  /-- the deadline goroutine, after the timer fired -/
  | deadline
  /-- the signal goroutine, after SIGINT or SIGTERM -/
  | interrupt
  /-- the `defer cancel()` of `main`, as `main` returns -/
  | mainReturn
  deriving DecidableEq, Repr

/-- What an execution does that can be observed, one event per print
statement or call of `cancel`. -/
inductive Event
  /-- the two lines `main` prints first -/
  | banner
  /-- the line "Test duration completed" -/
  | durationCompleted
  /-- the line "Received interrupt signal. Shutting down..." -/
  | interruptReceived
  /-- a call of `cancel` -/
  | cancel (source : CancelSource)
  /-- the line "Worker %d started on CPU core" -/
  | workerStarted (id : Nat)
  /-- the line "Worker %d shutting down": the worker returns and `wg.Done()` runs -/
  | workerExit (id : Nat)
  /-- a line of the monitor -/
  | monitorLine (line : Line)
  /-- the line "CPU stress test completed" -/
  | completed
  deriving DecidableEq, Repr

/-- A state of the process. -/
structure State where
  cfg : Config
  main : MainPc
  /-- whether `ctx.Done()` is closed -/
  cancelled : Bool
  /-- the counter of the `sync.WaitGroup` -/
  wg : Int
  /-- the workers started so far; the worker with id `i` is at index `i` -/
  workers : List Worker
  deadline : DeadlinePc
  signal : SignalPc
  monitor : MonitorPc
  /-- a panic ended the process -/
  crashed : Bool
  /-- the events so far, newest first -/
  log : List Event
  deriving DecidableEq, Repr

/-- A step of one goroutine, or of the world around the process. -/
inductive Action
  /-- the goroutine of `main` runs its next statement -/
  | main
  /-- the timer fires and the deadline goroutine takes `case <-timer.C` -/
  | timer
  /-- the deadline goroutine takes `case <-ctx.Done()` -/
  | deadlineDone
  /-- a SIGINT or SIGTERM arrives and the signal goroutine handles it -/
  | interrupt
  /-- worker `id` runs up to its next `select`; `now` is the clock if it reads it -/
  | worker (id : Nat) (now : Int)
  /-- the monitor takes `case <-ticker.C`; `probe` is what `getCPUUsage()` does -/
  | monitorTick (probe : Outcome F64)
  /-- the monitor takes `case <-ctx.Done()` -/
  | monitorDone
  deriving DecidableEq, Repr

/-- The process as `main` is entered. -/
def init (cfg : Config) : State :=
  { cfg := cfg, main := .start, cancelled := false, wg := 0, workers := [],
    deadline := .absent, signal := .absent, monitor := .absent, crashed := false, log := [] }

/-- The next statement of `main`. -/
def stepMain (s : State) : Option State :=
  match s.main with
  | .start => some { s with main := .armDeadline, log := .banner :: s.log }
  | .armDeadline =>
    match deadlineDelay s.cfg.duration with
    | some delay => some { s with main := .goSignal, deadline := .waiting delay }
    | none => some { s with main := .goSignal }
  | .goSignal => some { s with main := .goMonitor, signal := .waiting }
  | .goMonitor => some { s with main := .loop 0, monitor := .running }
  | .loop i =>
    if (i : Int) < s.cfg.numWorkers then
      some { s with main := .loop (i + 1), wg := s.wg + 1,
                    workers := s.workers ++ [⟨.entry, none⟩] }
    else some { s with main := .wait }
  | .wait => if s.wg = 0 then some { s with main := .complete } else none
  | .complete =>
    some { s with main := .exited, cancelled := true,
                  log := .cancel .mainReturn :: .completed :: s.log }
  | .exited => none

/-- The next step of worker `id` (Go `worker`). -/
def stepWorker (s : State) (id : Nat) (now : Int) : Option State :=
  match s.workers.get? id with
  | none => none
  | some w =>
    match w.pc with
    | .entry =>
      some { s with workers := s.workers.set id ⟨.select, some (workerSeed now id)⟩,
                    log := .workerStarted id :: s.log }
    | .select =>
      if s.cancelled then
        some { s with workers := s.workers.set id ⟨.exited, w.seed⟩, wg := s.wg - 1,
                      log := .workerExit id :: s.log }
      else some { s with workers := s.workers.set id ⟨.batch, w.seed⟩ }
    | .batch => some { s with workers := s.workers.set id ⟨.select, w.seed⟩ }
    | .exited => none

/-- One step of the process; `none` when the action cannot be taken. -/
def step (s : State) (a : Action) : Option State :=
  if s.main = .exited ∨ s.crashed = true then none
  else
    match a with
    | .main => stepMain s
    | .timer =>
      match s.deadline with
      | .waiting _ =>
        some { s with deadline := .fired, cancelled := true,
                      log := .cancel .deadline :: .durationCompleted :: s.log }
      | _ => none
    | .deadlineDone =>
      match s.deadline with
      | .waiting _ => if s.cancelled then some { s with deadline := .stopped } else none
      | _ => none
    | .interrupt =>
      match s.signal with
      | .waiting =>
        some { s with signal := .handled, cancelled := true,
                      log := .cancel .interrupt :: .interruptReceived :: s.log }
      | _ => none
    | .worker id now => stepWorker s id now
    | .monitorTick probe =>
      match s.monitor with
      | .running =>
        match monitorTick probe with
        | some line => some { s with log := .monitorLine line :: s.log }
        | none => some { s with crashed := true }
      | _ => none
    | .monitorDone =>
      match s.monitor with
      | .running => if s.cancelled then some { s with monitor := .returned } else none
      | _ => none

/-- Runs a schedule; `none` when one of its actions cannot be taken. -/
def run : State → List Action → Option State
  | s, [] => some s
  | s, a :: as =>
    match step s a with
    | none => none
    | some s' => run s' as

/-- The cancellation signal was fired by the deadline or by an interrupt
somewhere in `log`. -/
def Fired (log : List Event) : Prop :=
  .cancel .deadline ∈ log ∨ .cancel .interrupt ∈ log

instance (log : List Event) : Decidable (Fired log) := by
  unfold Fired
  infer_instance

/-- The ids of the workers that exit in `log`, newest first. -/
def exitIds : List Event → List Nat
  | [] => []
  | .workerExit id :: log => id :: exitIds log
  | _ :: log => exitIds log

/-- Worker `i` was started and has returned. -/
def hasExited (ws : List Worker) (i : Nat) : Bool :=
  match ws.get? i with
  | some w => decide (w.pc = .exited)
  | none => false

/-- The number of workers that have not returned. -/
def active (ws : List Worker) : Nat :=
  ws.countP fun w => decide (w.pc ≠ .exited)

/-- Every event of a log satisfies `P` together with the events before it. -/
def AllSuffix (P : Event → List Event → Prop) : List Event → Prop
  | [] => True
  | e :: earlier => P e earlier ∧ AllSuffix P earlier

/-- How many workers `main` has started, by where it stands; `n` is the number
of workers and `total` the number of rounds of its loop. -/
def SpawnInv : MainPc → Nat → Nat → Prop
  | .start, n, _ => n = 0
  | .armDeadline, n, _ => n = 0
  | .goSignal, n, _ => n = 0
  | .goMonitor, n, _ => n = 0
  | .loop i, n, total => n = i ∧ i ≤ total
  | .wait, n, total => n = total
  | .complete, n, total => n = total
  | .exited, n, total => n = total

/-- The invariant of the executions. -/
structure Inv (s : State) : Prop where
  /-- the workers started so far -/
  spawned : SpawnInv s.main s.workers.length s.cfg.numWorkers.toNat
  /-- the WaitGroup counts the workers that have not returned -/
  counter : s.wg = active s.workers
  /-- past `wg.Wait()` every worker has returned -/
  drained : s.main = .complete ∨ s.main = .exited →
    ∀ i, i < s.workers.length → hasExited s.workers i = true
  /-- while `main` runs, a closed `ctx.Done()` was closed by the deadline or an interrupt -/
  fired : s.cancelled = true → s.main = .exited ∨ Fired s.log
  /-- a worker exits only after the signal fired -/
  exitsFired : AllSuffix (fun e earlier => ∀ i, e = .workerExit i → Fired earlier) s.log
  /-- a worker exits once -/
  exitsOnce : ∀ i, (exitIds s.log).count i = if hasExited s.workers i then 1 else 0
  /-- the completion message comes after one exit of each worker -/
  completedLast : AllSuffix (fun e earlier => e = .completed →
    ∀ i, (exitIds earlier).count i = if i < s.cfg.numWorkers.toNat then 1 else 0) s.log

/-- A schedule with two workers and a deadline of one minute: `main` starts
everything, both workers start and work, the monitor prints an error line,
the timer fires, the goroutines see it, the workers exit, `main` completes. -/
def twoWorkerSchedule : List Action :=
  [.main, .main, .main, .main, .main, .main, .main,
   .worker 1 1700000000000000000, .worker 0 1700000000000000007, .worker 0 0,
   .monitorTick (.failure (.exec "exit status 1")), .timer, .monitorDone,
   .worker 1 0, .worker 0 0, .worker 0 0, .main, .main]

/-- The state `twoWorkerSchedule` ends in. -/
def twoWorkerFinal : State :=
  { cfg := ⟨2, 1⟩, main := .exited, cancelled := true, wg := 0,
    workers := [⟨.exited, some 1700000000000000007⟩, ⟨.exited, some 1700000000000000001⟩],
    deadline := .fired, signal := .waiting, monitor := .returned, crashed := false,
    log := [.cancel .mainReturn, .completed, .workerExit 0, .workerExit 1, .cancel .deadline,
            .durationCompleted,
            .monitorLine (.errorGettingCPUInfo
              (.errorf "failed to get CPU usage: " (.exec "exit status 1"))),
            .workerStarted 0, .workerStarted 1, .banner] }

/-! ## Checks of the float64 model against known binary64 encodings -/

set_option exponentiation.threshold 400 in
/-- The model gives the IEEE-754 encodings of 0.1 (0x3FB999999999999A), of
the sum 0.1 + 0.2 (0x3FD3333333333334), of the largest finite value and of
the smallest subnormal; half the smallest subnormal rounds to zero, and a
literal past the largest finite value is infinite with `ErrRange`. -/
theorem float64_model_known_values :
    ParseFloat "0.1".toList = ⟨.fin false (2 ^ 52 + 0x999999999999A) (0x3FB - 1), none⟩ ∧
    (ParseFloat "0.1".toList).val.add (ParseFloat "0.2".toList).val =
      .fin false (2 ^ 52 + 0x3333333333334) (0x3FD - 1) ∧
    ParseFloat "1.7976931348623157e308".toList = ⟨.fin false (2 ^ 53 - 1) 2045, none⟩ ∧
    ParseFloat "4.9e-324".toList = ⟨.fin false 1 0, none⟩ ∧
    ParseFloat "2.4703282292062327e-324".toList = ⟨.fin false 0 0, none⟩ ∧
    ParseFloat "1.8e308".toList = ⟨.inf false, some (.errRange "1.8e308".toList)⟩ ∧
    ParseFloat "-37".toList = ⟨.fin true (37 * 2 ^ 47) (5 + 1022), none⟩ := by
  refine ⟨by decide, by decide, by decide, by decide, by decide, by decide, by decide⟩

/-! ## Lemmas on the string functions and the scans -/

theorem trimSuffix_append (t : Str) (c : Char) : TrimSuffix (t ++ [c]) [c] = t := by
  simp [TrimSuffix, startsWith]

theorem trimSuffix_of_getLast (t : Str) (c : Char) (h : t.getLast? ≠ some c) :
    TrimSuffix t [c] = t := by
  unfold TrimSuffix
  rw [if_neg]
  intro hs
  apply h
  rw [← List.head?_reverse]
  cases hr : t.reverse with
  | nil => simp [hr, startsWith] at hs
  | cons d ds =>
    rw [hr] at hs
    simp [startsWith] at hs
    simp [hs]

theorem macScan_skip (pf : Str → Parsed) (pre : List Str) (rest : List Str)
    (hpre : ∀ l ∈ pre, Contains l "CPU usage".toList = false) :
    macScan pf (pre ++ rest) = macScan pf rest := by
  induction pre with
  | nil => rfl
  | cons l ls ih =>
    have hl := hpre l (List.mem_cons_self _ _)
    have hls : ∀ x ∈ ls, Contains x "CPU usage".toList = false :=
      fun x hx => hpre x (List.mem_cons_of_mem _ hx)
    simp only [List.cons_append, macScan, hl]
    simpa using ih hls

theorem linuxScan_skip (pf : Str → Parsed) (pre : List Str) (rest : List Str)
    (hpre : ∀ l ∈ pre, Contains l "%Cpu(s)".toList = false) :
    linuxScan pf (pre ++ rest) = linuxScan pf rest := by
  induction pre with
  | nil => rfl
  | cons l ls ih =>
    have hl := hpre l (List.mem_cons_self _ _)
    have hls : ∀ x ∈ ls, Contains x "%Cpu(s)".toList = false :=
      fun x hx => hpre x (List.mem_cons_of_mem _ hx)
    simp only [List.cons_append, linuxScan, hl]
    simpa using ih hls

theorem linuxScan_fails (pf : Str → Parsed) (lines : List Str)
    (h : ∀ line ∈ lines, Contains line "%Cpu(s)".toList = true →
      ∀ f1, (Fields line).get? 1 = some f1 → (pf f1).err ≠ none) :
    linuxScan pf lines = .failure (.text "failed to parse CPU usage from top output") := by
  induction lines with
  | nil => rfl
  | cons l ls ih =>
    have ih := ih (fun x hx => h x (List.mem_cons_of_mem _ hx))
    have hl := h l (List.mem_cons_self _ _)
    rw [linuxScan]
    by_cases hc : Contains l "%Cpu(s)".toList = true
    · rw [if_pos hc]
      by_cases hlen : 2 ≤ (Fields l).length
      · cases hf : (Fields l).get? 1 with
        | none =>
          rw [List.get?_eq_none] at hf
          omega
        | some f1 =>
          have he := hl hc f1 hf
          cases hp : (pf f1).err with
          | none => exact absurd hp he
          | some e =>
            simp only [if_pos hlen, hf, hp]
            exact ih
      · simp only [if_neg hlen]
        exact ih
    · rw [if_neg hc]
      exact ih

theorem macScan_hit (pf : Str → Parsed) (line : Str) (rest : List Str) (f2 f4 : Str)
    (hline : Contains line "CPU usage".toList = true) (hlen : 4 ≤ (Fields line).length)
    (hf2 : (Fields line).get? 2 = some f2) (hf4 : (Fields line).get? 4 = some f4) :
    macScan pf (line :: rest) =
      .value ((pf (TrimSuffix f2 "%".toList)).val.add (pf (TrimSuffix f4 "%".toList)).val) := by
  rw [macScan, if_pos hline]
  simp only [if_pos hlen, hf2, hf4]

theorem macScan_four_fields (pf : Str → Parsed) (line : Str) (rest : List Str)
    (hline : Contains line "CPU usage".toList = true) (hlen : (Fields line).length = 4) :
    macScan pf (line :: rest) = .panicked "index out of range [4] with length 4" := by
  have h4 : 4 ≤ (Fields line).length := by omega
  have hf4 : (Fields line).get? 4 = none := by
    rw [List.get?_eq_none]
    omega
  cases hf2 : (Fields line).get? 2 with
  | none =>
    rw [List.get?_eq_none] at hf2
    omega
  | some f2 =>
    rw [macScan, if_pos hline]
    simp only [if_pos h4, hf2, hf4]

theorem linuxScan_hit (pf : Str → Parsed) (line : Str) (rest : List Str) (f1 : Str) (v : F64)
    (hline : Contains line "%Cpu(s)".toList = true) (hlen : 2 ≤ (Fields line).length)
    (hf1 : (Fields line).get? 1 = some f1) (hv : pf f1 = ⟨v, none⟩) :
    linuxScan pf (line :: rest) = .value v := by
  rw [linuxScan, if_pos hline]
  simp only [if_pos hlen, hf1, hv]

/-! ## The usage probes: claims C2 to C6 -/

/-- C2 (the code departs from the claim): on a line that contains "CPU usage"
and has exactly four fields, `getMacOSCPUUsage` passes the guard
`len(fields) >= 4` and then reads `fields[4]`: it panics with an index out of
range, whatever `strconv.ParseFloat` does. -/
theorem getMacOSCPUUsage_four_fields_panics :
    (Fields "CPU usage: 12.3% user,".toList).length = 4 ∧
    ∀ pf : Str → Parsed,
      getMacOSCPUUsage pf
          ⟨"Processes: 412 total\nCPU usage: 12.3% user,\nSharedLibs: 300M".toList, none⟩ =
        .panicked "index out of range [4] with length 4" := by
  refine ⟨by decide, fun pf => ?_⟩
  have hsplit : Split "Processes: 412 total\nCPU usage: 12.3% user,\nSharedLibs: 300M".toList '\n' =
      ["Processes: 412 total".toList] ++
        ("CPU usage: 12.3% user,".toList :: ["SharedLibs: 300M".toList]) := by decide
  simp only [getMacOSCPUUsage]
  rw [hsplit, macScan_skip pf _ _ (by decide)]
  exact macScan_four_fields pf _ _ (by decide) (by decide)

/-- C3 (the code departs from the claim): the line has eight fields and its
third field, "n/a", is not a number, yet `getMacOSCPUUsage` returns a
percentage and no error: both errors of `strconv.ParseFloat` are dropped, so
with any `ParseFloat` the result is a value, here 0 + 4.5. -/
theorem getMacOSCPUUsage_ignores_parse_errors :
    (Fields "CPU usage: n/a user, 4.5% sys, 83.2% idle".toList).length = 8 ∧
    (ParseFloat (TrimSuffix "n/a".toList "%".toList)).err = some (.errSyntax "n/a".toList) ∧
    (∀ pf : Str → Parsed,
      getMacOSCPUUsage pf ⟨"CPU usage: n/a user, 4.5% sys, 83.2% idle".toList, none⟩ =
        .value ((pf "n/a".toList).val.add (pf "4.5".toList).val)) ∧
    getMacOSCPUUsage ParseFloat ⟨"CPU usage: n/a user, 4.5% sys, 83.2% idle".toList, none⟩ =
      .value (F64.ofDecimal false 45 (-1)) := by
  have hsplit : Split "CPU usage: n/a user, 4.5% sys, 83.2% idle".toList '\n' =
      ["CPU usage: n/a user, 4.5% sys, 83.2% idle".toList] := by decide
  have hscan : ∀ pf : Str → Parsed,
      getMacOSCPUUsage pf ⟨"CPU usage: n/a user, 4.5% sys, 83.2% idle".toList, none⟩ =
        .value ((pf "n/a".toList).val.add (pf "4.5".toList).val) := by
    intro pf
    simp only [getMacOSCPUUsage]
    rw [hsplit, macScan_hit pf _ _ "n/a".toList "4.5%".toList (by decide) (by decide) (by decide)
      (by decide)]
    rw [show TrimSuffix "n/a".toList "%".toList = "n/a".toList by decide,
      show TrimSuffix "4.5%".toList "%".toList = "4.5".toList by decide]
  refine ⟨by decide, by decide, hscan, ?_⟩
  rw [hscan ParseFloat]
  decide

/-- C4: when the first line of the output that contains "CPU usage" has at
least five fields and its 3rd and 5th fields, a trailing "%" stripped, parse
as the numbers `u` and `s`, `getMacOSCPUUsage` returns `u + s` and no error;
stripping removes one "%" from a field that ends in it and leaves any other
field alone; and on the line "CPU usage: 12.3% user, 4.5% sys, 83.2% idle"
the result is the float64 16.8. -/
theorem getMacOSCPUUsage_sums_user_and_sys :
    (∀ (pf : Str → Parsed) (out : Str) (pre post : List Str) (line f2 f4 : Str) (u s : F64),
      Split out '\n' = pre ++ line :: post →
      (∀ l ∈ pre, Contains l "CPU usage".toList = false) →
      Contains line "CPU usage".toList = true →
      5 ≤ (Fields line).length →
      (Fields line).get? 2 = some f2 →
      (Fields line).get? 4 = some f4 →
      pf (TrimSuffix f2 "%".toList) = ⟨u, none⟩ →
      pf (TrimSuffix f4 "%".toList) = ⟨s, none⟩ →
      getMacOSCPUUsage pf ⟨out, none⟩ = .value (u.add s)) ∧
    (∀ t : Str, TrimSuffix (t ++ "%".toList) "%".toList = t ∧
      (t.getLast? ≠ some '%' → TrimSuffix t "%".toList = t)) ∧
    getMacOSCPUUsage ParseFloat ⟨"CPU usage: 12.3% user, 4.5% sys, 83.2% idle".toList, none⟩ =
      .value (F64.ofDecimal false 168 (-1)) := by
  refine ⟨?_, ?_, ?_⟩
  rotate_left 2
  · simp only [getMacOSCPUUsage]
    rw [show Split "CPU usage: 12.3% user, 4.5% sys, 83.2% idle".toList '\n' =
        ["CPU usage: 12.3% user, 4.5% sys, 83.2% idle".toList] by decide,
      macScan_hit ParseFloat _ _ "12.3%".toList "4.5%".toList (by decide) (by decide) (by decide)
        (by decide),
      show TrimSuffix "12.3%".toList "%".toList = "12.3".toList by decide,
      show TrimSuffix "4.5%".toList "%".toList = "4.5".toList by decide]
    decide
  · intro pf out pre post line f2 f4 u s hsplit hpre hline hlen hf2 hf4 hu hs
    have h4 : 4 ≤ (Fields line).length := by omega
    simp only [getMacOSCPUUsage]
    rw [hsplit, macScan_skip pf pre _ hpre, macScan_hit pf line post f2 f4 hline h4 hf2 hf4, hu, hs]
  · intro t
    exact ⟨trimSuffix_append t '%', trimSuffix_of_getLast t '%'⟩

/-- Witness of C4: a three-line output of `top` whose second line is the
"CPU usage" line. -/
theorem getMacOSCPUUsage_sums_user_and_sys_witness :
    getMacOSCPUUsage ParseFloat
        ⟨"Load Avg: 1.5, 1.6, 1.7\nCPU usage: 7% user, 2.5 sys, 90.5% idle\nPhysMem: 16G".toList,
          none⟩ =
      .value ((F64.ofDecimal false 7 0).add (F64.ofDecimal false 25 (-1))) :=
  getMacOSCPUUsage_sums_user_and_sys.1 ParseFloat _ ["Load Avg: 1.5, 1.6, 1.7".toList]
    ["PhysMem: 16G".toList] "CPU usage: 7% user, 2.5 sys, 90.5% idle".toList "7%".toList
    "2.5".toList _ _ (by decide) (by decide) (by decide) (by decide) (by decide) (by decide)
    (by decide) (by decide)

/-- C5: when the first line of the output that contains "%Cpu(s)" has at least
two fields and its 2nd field parses as the number `v`, `getLinuxCPUUsage`
returns `v` and no error; on the line "%Cpu(s): 23.4 us, ..." the result is
the float64 23.4; and when no line that contains "%Cpu(s)" has a 2nd field
that parses, it returns the error "failed to parse CPU usage from top
output". -/
theorem getLinuxCPUUsage_second_field :
    (∀ (pf : Str → Parsed) (out : Str) (pre post : List Str) (line f1 : Str) (v : F64),
      Split out '\n' = pre ++ line :: post →
      (∀ l ∈ pre, Contains l "%Cpu(s)".toList = false) →
      Contains line "%Cpu(s)".toList = true →
      2 ≤ (Fields line).length →
      (Fields line).get? 1 = some f1 →
      pf f1 = ⟨v, none⟩ →
      getLinuxCPUUsage pf ⟨out, none⟩ = .value v) ∧
    getLinuxCPUUsage ParseFloat ⟨"%Cpu(s): 23.4 us, ...".toList, none⟩ =
      .value (F64.ofDecimal false 234 (-1)) ∧
    (∀ (pf : Str → Parsed) (out : Str),
      (∀ line ∈ Split out '\n', Contains line "%Cpu(s)".toList = true →
        ∀ f1, (Fields line).get? 1 = some f1 → (pf f1).err ≠ none) →
      getLinuxCPUUsage pf ⟨out, none⟩ =
        .failure (.text "failed to parse CPU usage from top output")) := by
  refine ⟨?_, ?_, ?_⟩
  · intro pf out pre post line f1 v hsplit hpre hline hlen hf1 hv
    simp only [getLinuxCPUUsage]
    rw [hsplit, linuxScan_skip pf pre _ hpre]
    exact linuxScan_hit pf line post f1 v hline hlen hf1 hv
  · simp only [getLinuxCPUUsage]
    rw [show Split "%Cpu(s): 23.4 us, ...".toList '\n' = ["%Cpu(s): 23.4 us, ...".toList] by decide]
    exact linuxScan_hit ParseFloat _ _ "23.4".toList _ (by decide) (by decide) (by decide)
      (by decide)
  · intro pf out h
    simp only [getLinuxCPUUsage]
    exact linuxScan_fails pf _ h

/-- Witness of C5: an output of `top -bn 1` whose third line is the
"%Cpu(s)" line. -/
theorem getLinuxCPUUsage_second_field_witness :
    getLinuxCPUUsage ParseFloat
        ⟨"top - 10:00:00 up 1 day\nTasks: 200 total\n%Cpu(s):  5.9 us,  2.0 sy\nMiB Mem".toList,
          none⟩ =
      .value (F64.ofDecimal false 59 (-1)) :=
  getLinuxCPUUsage_second_field.1 ParseFloat _
    ["top - 10:00:00 up 1 day".toList, "Tasks: 200 total".toList] ["MiB Mem".toList]
    "%Cpu(s):  5.9 us,  2.0 sy".toList "5.9".toList _
    (by decide) (by decide) (by decide) (by decide) (by decide) (by decide)

/-- C6 as stated fails: with two blank lines between the header and the
value, every premise of the claim holds (a non-empty header, blank lines, the
number 37 as the second non-empty line), and `getWindowsCPUUsage` returns a
parse failure: it looks at the second line and, when that is blank, at the
third, never further. -/
theorem getWindowsCPUUsage_two_blank_lines_fails :
    Split "LoadPercentage\n\n\n37\n".toList '\n' =
      "LoadPercentage".toList :: ([[], []] ++ "37".toList :: [[]]) ∧
    "LoadPercentage".toList ≠ [] ∧
    (∀ b ∈ [([] : Str), []], TrimSpace b = []) ∧
    TrimSpace "37".toList ≠ [] ∧
    ParseFloat (TrimSpace "37".toList) = ⟨F64.ofDecimal false 37 0, none⟩ ∧
    getWindowsCPUUsage ParseFloat ⟨"LoadPercentage\n\n\n37\n".toList, none⟩ =
      .failure (.errorf "failed to parse CPU usage: " (.errSyntax [])) ∧
    getWindowsCPUUsage ParseFloat ⟨"LoadPercentage\n\n\n37\n".toList, none⟩ ≠
      .value (F64.ofDecimal false 37 0) := by
  refine ⟨by decide, by decide, by decide, by decide, by decide, by decide, by decide⟩

/-- C6, amended: when the output has a first line, then at most one line
that is blank once trimmed, then a line that trimmed is not empty and parses
as the number `v`, `getWindowsCPUUsage` returns `v` and no error; when two or
more lines that are blank once trimmed follow the first line, it returns the
parse failure that wraps the error of `ParseFloat` on the empty text, whatever
comes after them (the empty text is not a number); on the lines
"LoadPercentage", "", "37", "" the result is the float64 37. -/
theorem getWindowsCPUUsage_value_after_at_most_one_blank :
    (∀ (pf : Str → Parsed) (out header valueLine : Str) (blanks rest : List Str) (v : F64),
      Split out '\n' = header :: (blanks ++ valueLine :: rest) →
      blanks.length ≤ 1 →
      (∀ b ∈ blanks, TrimSpace b = []) →
      TrimSpace valueLine ≠ [] →
      pf (TrimSpace valueLine) = ⟨v, none⟩ →
      getWindowsCPUUsage pf ⟨out, none⟩ = .value v) ∧
    (∀ (pf : Str → Parsed) (out header valueLine : Str) (blanks rest : List Str) (e : GoError),
      Split out '\n' = header :: (blanks ++ valueLine :: rest) →
      2 ≤ blanks.length →
      (∀ b ∈ blanks, TrimSpace b = []) →
      (pf []).err = some e →
      getWindowsCPUUsage pf ⟨out, none⟩ =
        .failure (.errorf "failed to parse CPU usage: " e)) ∧
    (ParseFloat []).err = some (.errSyntax []) ∧
    Split "LoadPercentage\n\n37\n".toList '\n' =
      ["LoadPercentage".toList, [], "37".toList, []] ∧
    getWindowsCPUUsage ParseFloat ⟨"LoadPercentage\n\n37\n".toList, none⟩ =
      .value (F64.ofDecimal false 37 0) := by
  refine ⟨?_, ?_, by decide, by decide, by decide⟩
  · intro pf out header valueLine blanks rest v hsplit hlen hblank hne hv
    simp only [getWindowsCPUUsage]
    rw [hsplit]
    match blanks, hlen, hblank with
    | [], _, _ =>
      simp [hne, hv]
    | [b], _, hb =>
      have hb' : TrimSpace b = [] := hb b (List.mem_singleton.2 rfl)
      simp [hb', hv]
  · intro pf out header valueLine blanks rest e hsplit hlen hblank he
    simp only [getWindowsCPUUsage]
    rw [hsplit]
    match blanks, hlen, hblank with
    | b1 :: b2 :: bs, _, hb =>
      have h1 : TrimSpace b1 = [] := hb b1 (List.mem_cons_self _ _)
      have h2 : TrimSpace b2 = [] :=
        hb b2 (List.mem_cons_of_mem _ (List.mem_cons_self _ _))
      simp [h1, h2, he]

/-- Witness of C6 (amended): an output of `wmic` with carriage returns and
one blank line before the value, which gives the value, and one with three
blank lines before it, which gives the parse failure. -/
theorem getWindowsCPUUsage_value_after_at_most_one_blank_witness :
    getWindowsCPUUsage ParseFloat ⟨"LoadPercentage  \r\n\r\n42  \r\n\r\n".toList, none⟩ =
      .value (F64.ofDecimal false 42 0) ∧
    getWindowsCPUUsage ParseFloat ⟨"LoadPercentage  \r\n\r\n\r\n \r\n42  \r\n".toList, none⟩ =
      .failure (.errorf "failed to parse CPU usage: " (.errSyntax [])) :=
  ⟨getWindowsCPUUsage_value_after_at_most_one_blank.1 ParseFloat _ "LoadPercentage  \r".toList
    "42  \r".toList ["\r".toList] ["\r".toList, []] _ (by decide) (by decide) (by decide)
    (by decide) (by decide),
   getWindowsCPUUsage_value_after_at_most_one_blank.2.1 ParseFloat _ "LoadPercentage  \r".toList
    "42  \r".toList ["\r".toList, "\r".toList, " \r".toList] [[]] _ (by decide) (by decide)
    (by decide) (by decide)⟩

/-! ## The monitor: claim C7 -/

/-- C7: for every finite sequence of ticks, whatever each probe returns
(a value or an error), `monitorCPU` prints exactly one line per tick, in
order, the "CPU Usage" line with the value on success and the "Error getting
CPU info" line with the error on failure, and is then still waiting in its
`select`; it returns when the `select` takes `ctx.Done()`, having printed the
lines of the ticks before; and it never returns unless `ctx.Done()` was
taken. -/
theorem monitorCPU_one_line_per_tick :
    (∀ results : List (Except GoError F64),
      monitorCPU (results.map fun r => .tick (probeReturns r)) =
        ⟨results.map renderedLine, .waiting⟩) ∧
    (∀ (results : List (Except GoError F64)) (later : List Select),
      monitorCPU ((results.map fun r => .tick (probeReturns r)) ++ .done :: later) =
        ⟨results.map renderedLine, .returned⟩) ∧
    (∀ events : List Select, (monitorCPU events).status = .returned → .done ∈ events) := by
  have htick : ∀ r : Except GoError F64,
      monitorTick (probeReturns r) = some (renderedLine r) := by
    intro r
    cases r <;> rfl
  refine ⟨?_, ?_, ?_⟩
  · intro results
    induction results with
    | nil => rfl
    | cons r rs ih => simp only [List.map_cons, monitorCPU, htick, ih]
  · intro results later
    induction results with
    | nil => rfl
    | cons r rs ih =>
      rw [List.map_cons, List.cons_append, monitorCPU]
      simp only [htick, ih, List.map_cons]
  · intro events
    induction events with
    | nil => intro h; simp [monitorCPU] at h
    | cons e es ih =>
      cases e with
      | done => intro _; exact List.mem_cons_self _ _
      | tick probe =>
        intro h
        simp only [monitorCPU] at h
        cases hl : monitorTick probe with
        | none => simp [hl] at h
        | some line =>
          simp only [hl] at h
          exact List.mem_cons_of_mem _ (ih h)

/-- Witness of C7: a probe that succeeds, then fails, then the cancellation:
the monitor returned, so its `select` took `ctx.Done()`. -/
theorem monitorCPU_one_line_per_tick_witness :
    (monitorCPU [.tick (.value (F64.ofDecimal false 25 0)),
        .tick (.failure (.text "unsupported operating system: plan9")), .done]).status =
      .returned ∧
    Select.done ∈ [Select.tick (.value (F64.ofDecimal false 25 0)),
        .tick (.failure (.text "unsupported operating system: plan9")), .done] :=
  ⟨by decide, monitorCPU_one_line_per_tick.2.2 _ (by decide)⟩

/-! ## The deadline and the seeds: claims C9 and C10 -/

/-- C9 as stated fails: 153722868 is a positive machine integer, even a
32-bit one, the deadline is armed, and the delay handed to the timer is
negative, not 153722868 minutes: the product wraps around in `int64`. -/
theorem deadlineDelay_wraps_at_153722868 :
    (0 : Int) < 153722868 ∧ (153722868 : Int) < 2 ^ 31 ∧
    deadlineDelay 153722868 = some (-9223371993709551616) ∧
    deadlineDelay 153722868 ≠ some (153722868 * 60 * 10 ^ 9) ∧
    ¬ (0 : Int) < -9223371993709551616 := by
  refine ⟨by decide, by decide, by decide, by decide, by decide⟩

/-- C9, amended: for every value `t` of the flag `-t` a deadline is armed if
and only if `t > 0`; when armed with `t ≤ 153722867`, the largest number of
minutes an `int64` of nanoseconds holds, the delay of the timer is exactly
`t * 60 * 10^9` nanoseconds, a positive duration; `t = 0` arms no deadline. -/
theorem deadlineDelay_minutes (t : Int) :
    ((deadlineDelay t).isSome = true ↔ 0 < t) ∧
    (0 < t → t ≤ 153722867 →
      deadlineDelay t = some (t * 60 * 10 ^ 9) ∧ 0 < t * 60 * 10 ^ 9) ∧
    deadlineDelay 0 = none := by
  refine ⟨?_, ?_, by decide⟩
  · unfold deadlineDelay
    split <;> simp [*]
  · intro h0 h1
    unfold deadlineDelay wrapInt64 Minute
    rw [if_pos h0]
    norm_num
    constructor <;> omega

/-- Witness of C9 (amended): one minute is 60 * 10^9 nanoseconds. -/
theorem deadlineDelay_minutes_witness :
    deadlineDelay 1 = some (1 * 60 * 10 ^ 9) ∧ (0 : Int) < 1 * 60 * 10 ^ 9 :=
  (deadlineDelay_minutes 1).2.1 (by decide) (by decide)

/-- C10 as stated fails: worker 0 reading the clock one nanosecond after
worker 1 gets the same seed as worker 1. -/
theorem workerSeed_collision :
    (0 : Int) ≠ 1 ∧
    workerSeed 1700000000000000001 0 = workerSeed 1700000000000000000 1 := by
  refine ⟨by decide, by decide⟩

/-- C10, amended: two workers with distinct ids `i ≠ j` that read the same
clock value get different seeds; with clock readings `ci`, `cj` whose sums
with the ids fit in `int64`, the seeds `ci + i` and `cj + j` are equal exactly
when `ci - cj = j - i`. -/
theorem workerSeed_distinct (ci cj i j : Int)
    (hi : 0 ≤ i ∧ i < 2 ^ 63) (hj : 0 ≤ j ∧ j < 2 ^ 63) (hij : i ≠ j) :
    (ci = cj → workerSeed ci i ≠ workerSeed cj j) ∧
    (-2 ^ 63 ≤ ci + i ∧ ci + i < 2 ^ 63 → -2 ^ 63 ≤ cj + j ∧ cj + j < 2 ^ 63 →
      (workerSeed ci i = workerSeed cj j ↔ ci - cj = j - i)) := by
  unfold workerSeed wrapInt64
  norm_num at hi hj ⊢
  constructor
  · intro h
    subst h
    omega
  · intro h1 h2 h3 h4
    omega

/-- Witness of C10 (amended): workers 0 and 1 reading the same clock. -/
theorem workerSeed_distinct_witness :
    workerSeed 1700000000000000000 0 ≠ workerSeed 1700000000000000000 1 :=
  (workerSeed_distinct 1700000000000000000 1700000000000000000 0 1
    (by decide) (by decide) (by decide)).1 rfl

/-! ## The coordinator: invariants of the executions -/

theorem fired_cons (e : Event) (log : List Event) :
    Fired (e :: log) ↔ (e = .cancel .deadline ∨ e = .cancel .interrupt) ∨ Fired log := by
  unfold Fired
  simp only [List.mem_cons]
  constructor
  · rintro (h | h) <;> rcases h with h | h
    · exact Or.inl (Or.inl h.symm)
    · exact Or.inr (Or.inl h)
    · exact Or.inl (Or.inr h.symm)
    · exact Or.inr (Or.inr h)
  · rintro ((h | h) | h | h)
    · exact Or.inl (Or.inl h.symm)
    · exact Or.inr (Or.inl h.symm)
    · exact Or.inl (Or.inr h)
    · exact Or.inr (Or.inr h)

theorem fired_append (later earlier : List Event) (h : Fired earlier) :
    Fired (later ++ earlier) := by
  unfold Fired at *
  rcases h with h | h
  · exact Or.inl (List.mem_append_right _ h)
  · exact Or.inr (List.mem_append_right _ h)

theorem allSuffix_cons (P : Event → List Event → Prop) (e : Event) (log : List Event) :
    AllSuffix P (e :: log) ↔ P e log ∧ AllSuffix P log := Iff.rfl

theorem allSuffix_split (P : Event → List Event → Prop) (later : List Event) (e : Event)
    (earlier : List Event) (h : AllSuffix P (later ++ e :: earlier)) : P e earlier := by
  induction later with
  | nil => exact h.1
  | cons x xs ih => exact ih h.2

theorem hasExited_append (ws : List Worker) (seed : Option Int) (i : Nat) :
    hasExited (ws ++ [⟨.entry, seed⟩]) i = hasExited ws i := by
  induction ws generalizing i with
  | nil => cases i <;> simp [hasExited]
  | cons w ws ih =>
    cases i with
    | zero => simp [hasExited]
    | succ i =>
      have := ih i
      simpa [hasExited] using this

theorem hasExited_set (ws : List Worker) (id : Nat) (w : Worker) (i : Nat) :
    hasExited (ws.set id w) i =
      if i = id ∧ id < ws.length then decide (w.pc = .exited) else hasExited ws i := by
  induction ws generalizing id i with
  | nil => simp [hasExited]
  | cons x xs ih =>
    cases id with
    | zero => cases i <;> simp [hasExited]
    | succ id =>
      cases i with
      | zero => simp [hasExited]
      | succ i =>
        have := ih id i
        simpa [hasExited] using this

theorem hasExited_of_get (ws : List Worker) (id : Nat) (w : Worker)
    (h : ws.get? id = some w) : hasExited ws id = decide (w.pc = .exited) := by
  unfold hasExited
  rw [h]

theorem active_append (ws : List Worker) (seed : Option Int) :
    active (ws ++ [⟨.entry, seed⟩]) = active ws + 1 := by
  simp [active, List.countP_append]

theorem active_set (ws : List Worker) (id : Nat) (w w' : Worker) (h : ws.get? id = some w) :
    active (ws.set id w') + (if w.pc = .exited then 0 else 1) =
      active ws + (if w'.pc = .exited then 0 else 1) := by
  induction ws generalizing id with
  | nil => simp at h
  | cons x xs ih =>
    cases id with
    | zero =>
      simp at h
      subst h
      simp only [active, List.set_cons_zero, List.countP_cons]
      by_cases h1 : x.pc = .exited <;> by_cases h2 : w'.pc = .exited <;> simp [h1, h2]
    | succ id =>
      have h' : xs.get? id = some w := by simpa using h
      have := ih id h'
      simp only [active, List.set_cons_succ, List.countP_cons] at this ⊢
      omega

theorem hasExited_of_active_zero (ws : List Worker) (h : active ws = 0) (i : Nat)
    (hi : i < ws.length) : hasExited ws i = true := by
  induction ws generalizing i with
  | nil => simp at hi
  | cons x xs ih =>
    simp only [active, List.countP_cons] at h
    have hx : ¬ (decide (x.pc ≠ .exited) = true) := by
      intro hx
      simp [hx] at h
    have hxs : active xs = 0 := by
      simp only [active]
      omega
    cases i with
    | zero => simpa [hasExited] using hx
    | succ i =>
      have := ih hxs i (by simpa using hi)
      simpa [hasExited] using this

theorem get_lt_length (ws : List Worker) (id : Nat) (w : Worker) (h : ws.get? id = some w) :
    id < ws.length := by
  by_contra hlt
  rw [List.get?_eq_none.2 (by omega)] at h
  cases h

theorem lt_length_of_hasExited (ws : List Worker) (i : Nat) (h : hasExited ws i = true) :
    i < ws.length := by
  by_contra hlt
  unfold hasExited at h
  rw [List.get?_eq_none.2 (by omega)] at h
  cases h

theorem inv_init (cfg : Config) : Inv (init cfg) := by
  refine ⟨?_, ?_, ?_, ?_, ?_, ?_, ?_⟩ <;> simp [init, SpawnInv, active, AllSuffix, exitIds, hasExited]

theorem inv_stepMain {s s' : State} (hI : Inv s)
    (h : stepMain s = some s') : Inv s' := by
  obtain ⟨h1, h2, h3, h4, h5, h6, h7⟩ := hI
  unfold stepMain at h
  cases hm : s.main with
  | start =>
    simp only [hm] at h
    cases h
    rw [hm] at h1
    refine ⟨?_, ?_, ?_, ?_, ?_, ?_, ?_⟩ <;>
      simp_all [SpawnInv, allSuffix_cons, exitIds, fired_cons]
  | armDeadline =>
    simp only [hm] at h
    rw [hm] at h1
    split at h <;> cases h <;>
    refine ⟨?_, ?_, ?_, ?_, ?_, ?_, ?_⟩ <;>
      simp_all [SpawnInv, allSuffix_cons, exitIds, fired_cons]
  | goSignal =>
    simp only [hm] at h
    cases h
    rw [hm] at h1
    refine ⟨?_, ?_, ?_, ?_, ?_, ?_, ?_⟩ <;>
      simp_all [SpawnInv, allSuffix_cons, exitIds, fired_cons]
  | goMonitor =>
    simp only [hm] at h
    cases h
    rw [hm] at h1
    refine ⟨?_, ?_, ?_, ?_, ?_, ?_, ?_⟩ <;>
      simp_all [SpawnInv, allSuffix_cons, exitIds, fired_cons]
  | loop i =>
    simp only [hm] at h
    rw [hm] at h1
    obtain ⟨hlen, hle⟩ := h1
    split at h
    · rename_i hlt
      cases h
      refine ⟨?_, ?_, ?_, ?_, ?_, ?_, ?_⟩
      case refine_1 =>
        simp only [SpawnInv, List.length_append, List.length_singleton, hlen, true_and]
        omega
      all_goals simp_all [allSuffix_cons, exitIds, fired_cons, active_append, hasExited_append]
    · rename_i hge
      cases h
      refine ⟨?_, ?_, ?_, ?_, ?_, ?_, ?_⟩
      case refine_1 =>
        simp only [SpawnInv, hlen]
        omega
      all_goals simp_all [allSuffix_cons, exitIds, fired_cons]
  | wait =>
    simp only [hm] at h
    rw [hm] at h1
    split at h
    · rename_i hwg
      cases h
      refine ⟨?_, ?_, ?_, ?_, ?_, ?_, ?_⟩
      case refine_3 =>
        intro _ i hi
        exact hasExited_of_active_zero s.workers (by omega) i hi
      all_goals simp_all [SpawnInv, allSuffix_cons, exitIds, fired_cons]
    · cases h
  | complete =>
    simp only [hm] at h
    cases h
    rw [hm] at h1
    have hdone : ∀ i, (exitIds s.log).count i = if i < s.cfg.numWorkers.toNat then 1 else 0 := by
      intro i
      rw [h6 i]
      by_cases hi : i < s.cfg.numWorkers.toNat
      · rw [if_pos hi, if_pos (h3 (Or.inl hm) i (by simpa [SpawnInv] using h1 ▸ hi))]
      · rw [if_neg hi, if_neg]
        intro hex
        have := lt_length_of_hasExited _ _ hex
        simp only [SpawnInv] at h1
        omega
    refine ⟨?_, ?_, ?_, ?_, ?_, ?_, ?_⟩
    case refine_7 =>
      simp only [allSuffix_cons]
      refine ⟨fun h => absurd h (by simp), fun _ => hdone, h7⟩
    all_goals simp_all [SpawnInv, allSuffix_cons, exitIds, fired_cons]
  | exited =>
    simp only [hm] at h
    cases h
theorem inv_stepWorker {s s' : State} {id : Nat} {now : Int} (hI : Inv s)
    (hlive : s.main ≠ .exited) (h : stepWorker s id now = some s') : Inv s' := by
  obtain ⟨h1, h2, h3, h4, h5, h6, h7⟩ := hI
  unfold stepWorker at h
  cases hw : s.workers[id]? with
  | none => simp [hw] at h
  | some w =>
    have hw' : s.workers.get? id = some w := by simpa using hw
    have hid : id < s.workers.length := get_lt_length _ _ _ hw'
    have hex := hasExited_of_get _ _ _ hw'
    simp only [List.get?_eq_getElem?, hw] at h
    cases hpc : w.pc with
    | entry =>
      simp only [hpc] at h
      cases h
      have hact := active_set s.workers id w ⟨.select, some (workerSeed now id)⟩ hw'
      have hnc : s.main ≠ .complete := fun hc => by
        have := h3 (Or.inl hc) id hid
        rw [hex, hpc] at this
        simp at this
      refine ⟨?_, ?_, ?_, ?_, ?_, ?_, ?_⟩
      case refine_6 =>
        intro i
        by_cases hi : i = id
        · subst hi
          simp_all [exitIds, hasExited_set]
        · simp_all [exitIds, hasExited_set]
      all_goals simp_all [allSuffix_cons, exitIds, fired_cons, hasExited_set]
    | select =>
      simp only [hpc] at h
      have hnc : s.main ≠ .complete := fun hc => by
        have := h3 (Or.inl hc) id hid
        rw [hex, hpc] at this
        simp at this
      split at h
      · rename_i hcan
        cases h
        have hact := active_set s.workers id w ⟨.exited, w.seed⟩ hw'
        have hfired : Fired s.log := (h4 hcan).resolve_left hlive
        refine ⟨?_, ?_, ?_, ?_, ?_, ?_, ?_⟩
        case refine_2 =>
          simp only [hpc] at hact
          simp only [h2]
          simp at hact
          omega
        case refine_5 =>
          simp only [allSuffix_cons]
          exact ⟨fun _ _ => hfired, h5⟩
        case refine_6 =>
          intro i
          by_cases hi : i = id
          · subst hi
            have := h6 i
            simp_all [exitIds, hasExited_set]
          · have := h6 i
            simp_all [exitIds, hasExited_set, List.count_cons]
        all_goals simp_all [allSuffix_cons, exitIds, fired_cons, hasExited_set]
      · cases h
        have hact := active_set s.workers id w ⟨.batch, w.seed⟩ hw'
        refine ⟨?_, ?_, ?_, ?_, ?_, ?_, ?_⟩
        case refine_6 =>
          intro i
          by_cases hi : i = id
          · subst hi
            simp_all [exitIds, hasExited_set]
          · simp_all [exitIds, hasExited_set]
        all_goals simp_all [allSuffix_cons, exitIds, fired_cons, hasExited_set]
    | batch =>
      simp only [hpc] at h
      cases h
      have hact := active_set s.workers id w ⟨.select, w.seed⟩ hw'
      have hnc : s.main ≠ .complete := fun hc => by
        have := h3 (Or.inl hc) id hid
        rw [hex, hpc] at this
        simp at this
      refine ⟨?_, ?_, ?_, ?_, ?_, ?_, ?_⟩
      case refine_6 =>
        intro i
        by_cases hi : i = id
        · subst hi
          simp_all [exitIds, hasExited_set]
        · simp_all [exitIds, hasExited_set]
      all_goals simp_all [allSuffix_cons, exitIds, fired_cons, hasExited_set]
    | exited => simp [hpc] at h
theorem inv_step {s s' : State} {a : Action} (hI : Inv s) (h : step s a = some s') : Inv s' := by
  unfold step at h
  split at h
  · cases h
  · rename_i hlive
    have hmain : s.main ≠ .exited := fun hm => hlive (Or.inl hm)
    cases a with
    | main => exact inv_stepMain hI h
    | worker id now => exact inv_stepWorker hI hmain h
    | timer =>
      obtain ⟨h1, h2, h3, h4, h5, h6, h7⟩ := hI
      simp only at h
      split at h
      · cases h
        refine ⟨?_, ?_, ?_, ?_, ?_, ?_, ?_⟩
        all_goals simp_all [allSuffix_cons, exitIds, fired_cons]
      · cases h
    | deadlineDone =>
      obtain ⟨h1, h2, h3, h4, h5, h6, h7⟩ := hI
      simp only at h
      split at h
      · split at h
        · cases h
          exact ⟨h1, h2, h3, h4, h5, h6, h7⟩
        · cases h
      · cases h
    | interrupt =>
      obtain ⟨h1, h2, h3, h4, h5, h6, h7⟩ := hI
      simp only at h
      split at h
      · cases h
        refine ⟨?_, ?_, ?_, ?_, ?_, ?_, ?_⟩
        all_goals simp_all [allSuffix_cons, exitIds, fired_cons]
      · cases h
    | monitorTick probe =>
      obtain ⟨h1, h2, h3, h4, h5, h6, h7⟩ := hI
      simp only at h
      split at h
      · split at h
        · cases h
          refine ⟨?_, ?_, ?_, ?_, ?_, ?_, ?_⟩
          all_goals simp_all [allSuffix_cons, exitIds, fired_cons]
        · cases h
          exact ⟨h1, h2, h3, h4, h5, h6, h7⟩
      · cases h
    | monitorDone =>
      obtain ⟨h1, h2, h3, h4, h5, h6, h7⟩ := hI
      simp only at h
      split at h
      · split at h
        · cases h
          exact ⟨h1, h2, h3, h4, h5, h6, h7⟩
        · cases h
      · cases h

theorem inv_run {s s' : State} (acts : List Action) (hI : Inv s) (h : run s acts = some s') :
    Inv s' := by
  induction acts generalizing s with
  | nil =>
    simp only [run] at h
    cases h
    exact hI
  | cons a as ih =>
    simp only [run] at h
    cases hs : step s a with
    | none => simp [hs] at h
    | some s1 =>
      simp only [hs] at h
      exact ih (inv_step hI hs) h

theorem cfg_step {s s' : State} {a : Action} (h : step s a = some s') : s'.cfg = s.cfg := by
  unfold step at h
  split at h
  · cases h
  · cases a <;> simp only [stepMain, stepWorker] at h <;> (repeat' split at h) <;>
      first
        | (cases h; rfl)
        | cases h

theorem cfg_run {s s' : State} (acts : List Action) (h : run s acts = some s') :
    s'.cfg = s.cfg := by
  induction acts generalizing s with
  | nil =>
    simp only [run] at h
    cases h
    rfl
  | cons a as ih =>
    simp only [run] at h
    cases hs : step s a with
    | none => simp [hs] at h
    | some s1 =>
      simp only [hs] at h
      rw [ih h, cfg_step hs]

theorem count_exitIds_range (l : List Nat) (N : Nat)
    (h : ∀ i, l.count i = if i < N then 1 else 0) : l.Perm (List.range N) := by
  rw [List.perm_iff_count]
  intro i
  rw [h i]
  by_cases hi : i < N
  · rw [if_pos hi, List.count_eq_one_of_mem (List.nodup_range N) (List.mem_range.2 hi)]
  · rw [if_neg hi, List.count_eq_zero_of_not_mem (fun hm => hi (List.mem_range.1 hm))]

theorem mem_exitIds (log : List Event) (i : Nat) (h : i ∈ exitIds log) :
    .workerExit i ∈ log := by
  induction log with
  | nil => simp [exitIds] at h
  | cons e es ih =>
    cases e <;> simp_all [exitIds]
    rcases h with h | h
    · exact Or.inl h
    · exact Or.inr (ih h)

/-! ## The coordinator: claims C1 and C8 -/

/-- C1 (the code departs from the claim): with `-w 0 -t 0` and no timer, no
signal and no other goroutine taking a step, seven steps of `main` end the
run: `wg.Wait()` returns at once, the completion message is printed when the
only event before it is the banner, and `ctx` is cancelled by nothing but the
`defer cancel()` of the returning `main`; after that the process takes no
step, so the monitor reports nothing. With `-t 1` the timer is armed and the
same happens before it fires. -/
theorem main_zero_workers_completes_uncancelled :
    (run (init ⟨0, 0⟩) (List.replicate 7 .main)).map (fun s => (s.main, s.log)) =
      some (.exited, [.cancel .mainReturn, .completed, .banner]) ∧
    ¬ Fired [.banner] ∧
    (∀ a : Action, (run (init ⟨0, 0⟩) (List.replicate 7 .main ++ [a])) = none) ∧
    (run (init ⟨0, 1⟩) (List.replicate 7 .main)).map (fun s => (s.main, s.deadline, s.log)) =
      some (.exited, .waiting 60000000000, [.cancel .mainReturn, .completed, .banner]) := by
  refine ⟨by decide, by decide, ?_, by decide⟩
  intro a
  have h : run (init ⟨0, 0⟩) (List.replicate 7 .main ++ [a]) =
      step ⟨⟨0, 0⟩, .exited, true, 0, [], .absent, .waiting, .running, false,
        [.cancel .mainReturn, .completed, .banner]⟩ a >>= fun s => run s [] := by
    rfl
  rw [h]
  simp [step]

/-- C8: for every `N ≥ 1`, in every execution of `main` with `N` workers (any
`-t`, any schedule of the goroutines, the timer and the signals), every exit
of a worker comes after a `cancel` by the deadline or an interrupt, and when
the completion message is printed the events before it hold such a `cancel`
and exactly one exit of each worker `0 .. N-1`, and no other exit. -/
theorem worker_exits_follow_cancellation (N : Nat) (hN : 1 ≤ N) (t : Int)
    (acts : List Action) (s : State) (hrun : run (init ⟨N, t⟩) acts = some s) :
    (∀ later earlier i, s.log = later ++ .workerExit i :: earlier → Fired earlier) ∧
    (∀ later earlier, s.log = later ++ .completed :: earlier →
      Fired earlier ∧ (exitIds earlier).Perm (List.range N)) := by
  have hI := inv_run acts (inv_init _) hrun
  have hcfg : s.cfg = ⟨N, t⟩ := cfg_run acts hrun
  have hexit : ∀ later earlier i, s.log = later ++ .workerExit i :: earlier → Fired earlier := by
    intro later earlier i hlog
    have h5 := hI.exitsFired
    rw [hlog] at h5
    exact allSuffix_split _ later _ earlier h5 i rfl
  refine ⟨hexit, ?_⟩
  intro later earlier hlog
  have h7 := hI.completedLast
  rw [hlog, hcfg] at h7
  have hcount : ∀ i, (exitIds earlier).count i = if i < N then 1 else 0 := by
    simpa using allSuffix_split _ later _ earlier h7 rfl
  refine ⟨?_, count_exitIds_range _ N hcount⟩
  have h0 : 0 ∈ exitIds earlier := by
    rw [← List.count_pos_iff, hcount 0, if_pos (by omega)]
    exact Nat.one_pos
  obtain ⟨l1, l2, hsplit⟩ := List.append_of_mem (mem_exitIds _ _ h0)
  have hf : Fired l2 := hexit (later ++ .completed :: l1) l2 0 (by rw [hlog, hsplit]; simp)
  rw [hsplit]
  exact fired_append l1 _ ((fired_cons _ _).2 (Or.inr hf))

/-- Witness of C8: the run of `twoWorkerSchedule`, with two workers. -/
theorem worker_exits_follow_cancellation_witness :
    run (init ⟨2, 1⟩) twoWorkerSchedule = some twoWorkerFinal ∧
    (∀ later earlier i, twoWorkerFinal.log = later ++ .workerExit i :: earlier →
      Fired earlier) ∧
    (∀ later earlier, twoWorkerFinal.log = later ++ .completed :: earlier →
      Fired earlier ∧ (exitIds earlier).Perm (List.range 2)) :=
  ⟨by decide,
   worker_exits_follow_cancellation 2 (by decide) 1 twoWorkerSchedule twoWorkerFinal (by decide)⟩

end CpuStress
